import Mathlib

/-!
Shallow embedding of `Password_Analyzer_and_Generator/password_analyzer.py`.

Passwords are modelled as `List Char`.  Python's `re.search` over a single
character class is presence of a character satisfying the class predicate,
so each regex test becomes `List.any` of the corresponding predicate.
Python floats are idealised as real numbers; `round(x, 2)` becomes
`round2` below.  `secrets.choice` is modelled by an arbitrary index oracle
`rnd : Nat → Nat`, reduced modulo the charset size, which ranges over every
possible sequence of draws.  The `timestamp` field of the result dict is
I/O (wall-clock) and is not part of the pure model.
-/

namespace PasswordAnalyzer

/-- Character matched by the regex class `[a-z]`. -/
def isLowerChar (c : Char) : Bool := 'a' ≤ c && c ≤ 'z'

/-- Character matched by the regex class `[A-Z]`. -/
def isUpperChar (c : Char) : Bool := 'A' ≤ c && c ≤ 'Z'

/-- Character matched by the regex class `[0-9]`. -/
def isDigitChar (c : Char) : Bool := '0' ≤ c && c ≤ '9'

/-- Character matched by the regex class `[^a-zA-Z0-9]` (anything else,
treated as a symbol). -/
def isSymbolChar (c : Char) : Bool := !(isLowerChar c || isUpperChar c || isDigitChar c)

/-- `re.search(r"[a-z]", password)` succeeds. -/
def hasLower (password : List Char) : Bool := password.any isLowerChar

/-- `re.search(r"[A-Z]", password)` succeeds. -/
def hasUpper (password : List Char) : Bool := password.any isUpperChar

/-- `re.search(r"[0-9]", password)` succeeds. -/
def hasDigit (password : List Char) : Bool := password.any isDigitChar

/-- `re.search(r"[^a-zA-Z0-9]", password)` succeeds. -/
def hasSymbol (password : List Char) : Bool := password.any isSymbolChar

/-- Python `str.lower()` restricted to ASCII: each `A`–`Z` is shifted down
into `a`–`z`, every other character is unchanged. -/
def pyLower (password : List Char) : List Char :=
  password.map (fun c => if isUpperChar c then Char.ofNat (c.toNat + 32) else c)

/-- Python `round(x, 2)`: round to two decimal places. -/
noncomputable def round2 (x : ℝ) : ℝ := (round (100 * x) : ℤ) / 100

/-- The character pool accumulated by `calculate_entropy` (lines 13–17):
starts at 0, adds 26 when a lowercase letter is present, 26 for uppercase,
10 for digits, 32 for anything else. -/
def pool_of (password : List Char) : ℕ :=
  let pool := 0
  let pool := if hasLower password then pool + 26 else pool
  let pool := if hasUpper password then pool + 26 else pool
  let pool := if hasDigit password then pool + 10 else pool
  let pool := if hasSymbol password then pool + 32 else pool
  pool

/-- `calculate_entropy` (lines 11–21): `0.0` when the pool or the length is
zero, otherwise `len(password) * log2(pool)` rounded to 2 decimals. -/
noncomputable def calculate_entropy (password : List Char) : ℝ :=
  if pool_of password = 0 ∨ password.length = 0 then 0
  else round2 ((password.length : ℝ) * Real.logb 2 (pool_of password : ℝ))

/-- `has_repeated_sequence` (lines 24–26): `re.search(r"(.)\1\1", pwd)`,
i.e. a scan for three consecutive identical characters.  In Python's `re`,
`.` matches any character except a newline (no DOTALL flag is passed), and
the backreferences repeat the captured character, so a run of three
newlines does not match. -/
def has_repeated_sequence : List Char → Bool
  | a :: b :: c :: t =>
      (a != '\n' && a == b && b == c) || has_repeated_sequence (b :: c :: t)
  | _ => false

/-- Python's substring test `needle in haystack`: some suffix of the
haystack starts with the needle. -/
def containsSub (needle : List Char) : List Char → Bool
  | [] => needle.isEmpty
  | c :: t => needle.isPrefixOf (c :: t) || containsSub needle t

/-- The fixed weak-substring list of `is_keyboard_pattern` (line 32). -/
def keyboard_patterns : List (List Char) :=
  ["qwerty".toList, "asdf".toList, "1234".toList,
   "password".toList, "abcd".toList, "1111".toList]

/-- `is_keyboard_pattern` (lines 29–33): some pattern is a substring of the
lowercased password. -/
def is_keyboard_pattern (pwd : List Char) : Bool :=
  keyboard_patterns.any (fun p => containsSub p (pyLower pwd))

/-- The `(score, remarks, blacklisted)` state `check_strength` has built just
before the clamp of lines 81–84. -/
structure ScoreCore where
  score : ℤ
  remarks : List String
  blacklisted : Bool
  deriving Repr, DecidableEq

/-- The length scoring of `check_strength` (lines 42–49): `+3`, `+2` or
`+1` by length band, or the too-short remark, starting from score 0 and an
empty remark list. -/
def length_step (password : List Char) : ℤ × List String :=
  if 16 ≤ password.length then (3, [])
  else if 12 ≤ password.length then (2, [])
  else if 8 ≤ password.length then (1, [])
  else (0, ["Too short (min 8 chars)"])

/-- One character-variety statement of `check_strength` (lines 52–62):
`score += 1` when the class is present, else append the remark. -/
def addPoint (present : Bool) (remark : String) (sr : ℤ × List String) : ℤ × List String :=
  if present then (sr.1 + 1, sr.2) else (sr.1, sr.2 ++ [remark])

/-- One penalty statement of `check_strength` (lines 65–70): append the
remark and `score -= 1` when the pattern check fires. -/
def penalty (fires : Bool) (remark : String) (sr : ℤ × List String) : ℤ × List String :=
  if fires then (sr.1 - 1, sr.2 ++ [remark]) else sr

/-- Lines 38–70 of `check_strength`: length scoring, the four
character-variety statements, and the two pattern penalties, applied to the
`(score, remarks)` state in source order (innermost first). -/
def score_pre (password : List Char) : ℤ × List String :=
  penalty (is_keyboard_pattern password) "Contains common pattern (qwerty/1234)"
    (penalty (has_repeated_sequence password) "Contains repeated characters"
      (addPoint (hasSymbol password) "Add symbols (!, @, #, etc.)"
        (addPoint (hasDigit password) "Add digits"
          (addPoint (hasUpper password) "Add uppercase letters"
            (addPoint (hasLower password) "Add lowercase letters"
              (length_step password))))))

/-- Lines 73–77 of `check_strength`: the blacklist test
`blacklist is not None and password.lower() in blacklist`, applied to the
state produced by `score_pre`. -/
def apply_blacklist (password : List Char) (blacklist : Option (List (List Char)))
    (sr : ℤ × List String) : ScoreCore :=
  match blacklist with
  | some bl =>
      if pyLower password ∈ bl then
        ⟨sr.1 - 2, sr.2 ++ ["Found in common-password blacklist"], true⟩
      else ⟨sr.1, sr.2, false⟩
  | none => ⟨sr.1, sr.2, false⟩

/-- Lines 81–84 of `check_strength`: clamp the score into `[0, 8]`. -/
def clamp_score (score : ℤ) : ℤ :=
  let score := if score < 0 then 0 else score
  let score := if 8 < score then 8 else score
  score

/-- Lines 87–94 of `check_strength`: the strength level, decided from the
blacklist flag, the entropy and the (clamped) score, first match wins. -/
noncomputable def level_of (blacklisted : Bool) (entropy : ℝ) (score : ℤ) : String :=
  if blacklisted then "Very Weak"
  else if 80 ≤ entropy ∧ 6 ≤ score then "Strong"
  else if 50 ≤ entropy ∧ 4 ≤ score then "Medium"
  else "Weak"

/-- The pure fields of the dict `check_strength` returns (lines 96–104); the
`timestamp` field is wall-clock I/O and has no pure counterpart. -/
structure AnalysisResult where
  password : List Char
  length : ℕ
  entropy : ℝ
  score : ℤ
  level : String
  remarks : List String

/-- `check_strength` (lines 36–104), assembled from the pieces above in
source order: scoring pipeline, blacklist, entropy, clamp, level. -/
noncomputable def check_strength (password : List Char)
    (blacklist : Option (List (List Char))) : AnalysisResult :=
  let core := apply_blacklist password blacklist (score_pre password)
  let entropy := calculate_entropy password
  let score := clamp_score core.score
  { password := password
    length := password.length
    entropy := entropy
    score := score
    level := level_of core.blacklisted entropy score
    remarks := core.remarks }

/-- `string.ascii_lowercase`. -/
def ascii_lowercase : List Char := "abcdefghijklmnopqrstuvwxyz".toList

/-- `string.ascii_uppercase`. -/
def ascii_uppercase : List Char := "ABCDEFGHIJKLMNOPQRSTUVWXYZ".toList

/-- `string.digits`. -/
def ascii_digits : List Char := "0123456789".toList

/-- The symbol set of line 113, `!@#$%^&*()-_=+[]\x7b\x7d;:,.<>/?`. -/
def symbol_set : List Char :=
  ['!', '@', '#', '$', '%', '^', '&', '*', '(', ')', '-', '_', '=', '+',
   '[', ']', '\x7b', '\x7d', ';', ':', ',', '.', '<', '>', '/', '?']

/-- The charset assembled by `generate_password` (lines 110–113): lowercase
always, the other classes per flag. -/
def gen_charset (use_upper use_digits use_symbols : Bool) : List Char :=
  let charset := ascii_lowercase
  let charset := if use_upper then charset ++ ascii_uppercase else charset
  let charset := if use_digits then charset ++ ascii_digits else charset
  let charset := if use_symbols then charset ++ symbol_set else charset
  charset

/-- `generate_password` (lines 108–114).  `length` is a Python `int`
(possibly ≤ 0; `range(length)` is then empty).  Each draw
`secrets.choice(charset)` is modelled as indexing the charset by an
arbitrary oracle value reduced modulo the charset size. -/
def generate_password (length : ℤ) (use_upper use_digits use_symbols : Bool)
    (rnd : ℕ → ℕ) : List Char :=
  let charset := gen_charset use_upper use_digits use_symbols
  (List.range length.toNat).map (fun i => charset.getD (rnd i % charset.length) 'a')

/-! ## Helper lemmas -/

theorem clamp_score_bounds (s : ℤ) : 0 ≤ clamp_score s ∧ clamp_score s ≤ 8 := by
  simp only [clamp_score]
  split_ifs <;> omega

theorem addPoint_fst (b : Bool) (r : String) (sr : ℤ × List String) :
    (addPoint b r sr).1 = sr.1 + (if b then 1 else 0) := by
  simp only [addPoint]
  split_ifs <;> simp

theorem addPoint_snd (b : Bool) (r : String) (sr : ℤ × List String) :
    (addPoint b r sr).2 = sr.2 ++ (if b then [] else [r]) := by
  simp only [addPoint]
  split_ifs <;> simp

theorem penalty_fst (b : Bool) (r : String) (sr : ℤ × List String) :
    (penalty b r sr).1 = sr.1 - (if b then 1 else 0) := by
  simp only [penalty]
  split_ifs <;> simp

theorem penalty_snd (b : Bool) (r : String) (sr : ℤ × List String) :
    (penalty b r sr).2 = sr.2 ++ (if b then [r] else []) := by
  simp only [penalty]
  split_ifs <;> simp

theorem length_step_fst_le (p : List Char) : (length_step p).1 ≤ 3 := by
  simp only [length_step]
  split_ifs <;> omega

theorem score_pre_fst_le (p : List Char) : (score_pre p).1 ≤ 7 := by
  have h := length_step_fst_le p
  simp only [score_pre, addPoint_fst, penalty_fst]
  split_ifs <;> omega

theorem check_strength_score (p : List Char) (bl : Option (List (List Char))) :
    (check_strength p bl).score = clamp_score (apply_blacklist p bl (score_pre p)).score := rfl

theorem apply_blacklist_score_le (p : List Char) (bl : Option (List (List Char))) :
    (apply_blacklist p bl (score_pre p)).score ≤ (score_pre p).1 := by
  cases bl with
  | none => simp [apply_blacklist]
  | some b =>
    simp only [apply_blacklist]
    split_ifs <;> simp

theorem gen_charset_length_pos (u d s : Bool) :
    0 < (gen_charset u d s).length := by
  simp only [gen_charset]
  split_ifs <;>
    simp [ascii_lowercase, ascii_uppercase, ascii_digits, symbol_set]

/-! ## Claims -/

/-- C1 (counterexample to the claim as stated): generating with length 0
does not fail — the code runs `range(0)`, which is empty, and returns the
empty string. -/
theorem generate_zero_length_returns_string :
    generate_password 0 true true true (fun _ => 0) = [] := rfl

/-- C1 (amended): for every generation config with length ≤ 0, the generate
operation raises no error and returns the empty string. -/
theorem generate_nonpositive_empty (length : ℤ) (h : length ≤ 0)
    (u d s : Bool) (rnd : ℕ → ℕ) :
    generate_password length u d s rnd = [] := by
  simp [generate_password, Int.toNat_of_nonpos h]

/-- Witness for `generate_nonpositive_empty` at length −5. -/
theorem generate_nonpositive_empty_witness :
    generate_password (-5) true true true (fun _ => 0) = [] :=
  generate_nonpositive_empty (-5) (by decide) true true true (fun _ => 0)

/-- C3: for every password and blacklist, the score field of the analysis
result is the clamp of the raw accumulation, and lies in [0, 8]. -/
theorem score_in_range (p : List Char) (bl : Option (List (List Char))) :
    0 ≤ (check_strength p bl).score ∧ (check_strength p bl).score ≤ 8 ∧
      (check_strength p bl).score = clamp_score (apply_blacklist p bl (score_pre p)).score := by
  rw [check_strength_score]
  exact ⟨(clamp_score_bounds _).1, (clamp_score_bounds _).2, rfl⟩

/-- C8: for every valid config (positive length) and every sequence of
random draws, the generated output has exactly `length` characters and each
of them belongs to the configured charset. -/
theorem generate_length_and_charset (length : ℤ) (h : 0 < length)
    (u d s : Bool) (rnd : ℕ → ℕ) :
    ((generate_password length u d s rnd).length : ℤ) = length ∧
      ∀ c ∈ generate_password length u d s rnd, c ∈ gen_charset u d s := by
  constructor
  · simp [generate_password, Int.toNat_of_nonneg h.le]
  · intro c hc
    simp only [generate_password, List.mem_map, List.mem_range] at hc
    obtain ⟨i, -, rfl⟩ := hc
    have hlt : rnd i % (gen_charset u d s).length < (gen_charset u d s).length :=
      Nat.mod_lt _ (gen_charset_length_pos u d s)
    rw [List.getD_eq_getElem _ _ hlt]
    exact List.getElem_mem hlt

/-- Witness for `generate_length_and_charset` at length 20 with all classes
enabled. -/
theorem generate_length_and_charset_witness :
    ((generate_password 20 true true true (fun _ => 7)).length : ℤ) = 20 ∧
      ∀ c ∈ generate_password 20 true true true (fun _ => 7),
        c ∈ gen_charset true true true :=
  generate_length_and_charset 20 (by decide) true true true (fun _ => 7)

/-- C10: the raw score accumulated before clamping is at most 7, so the
upper clamp is never triggered and the final score never equals 8. -/
theorem raw_score_le_seven (p : List Char) (bl : Option (List (List Char))) :
    (apply_blacklist p bl (score_pre p)).score ≤ 7 ∧ (check_strength p bl).score ≠ 8 := by
  have h7 : (apply_blacklist p bl (score_pre p)).score ≤ 7 :=
    le_trans (apply_blacklist_score_le p bl) (score_pre_fst_le p)
  refine ⟨h7, ?_⟩
  rw [check_strength_score]
  simp only [clamp_score]
  split_ifs <;> omega

theorem has_repeated_sequence_cons (a : Char) (l : List Char)
    (h : has_repeated_sequence l = true) : has_repeated_sequence (a :: l) = true := by
  match l with
  | [] => simp [has_repeated_sequence] at h
  | [_] => simp [has_repeated_sequence] at h
  | b :: c :: t =>
    simp only [has_repeated_sequence] at h ⊢
    rw [h]
    simp

/-- C5 (counterexample to the claim as stated): a password of three
newlines contains a character repeated three times consecutively, yet the
repeated-sequence check returns false, because `.` in the regex `(.)\1\1`
does not match a newline. -/
theorem has_repeated_sequence_newline_counterexample :
    has_repeated_sequence ['\n', '\n', '\n'] = false ∧
      ∃ pre c suf, (['\n', '\n', '\n'] : List Char) = pre ++ c :: c :: c :: suf :=
  ⟨rfl, [], '\n', [], rfl⟩

/-- C5 (amended): the repeated-sequence check returns true exactly when the
password contains some character other than a newline repeated three or
more times consecutively. -/
theorem has_repeated_sequence_iff (p : List Char) :
    has_repeated_sequence p = true ↔
      ∃ pre c suf, p = pre ++ c :: c :: c :: suf ∧ c ≠ '\n' := by
  induction p with
  | nil =>
    constructor
    · intro h
      simp [has_repeated_sequence] at h
    · rintro ⟨pre, c, suf, hp, -⟩
      have hl := congrArg List.length hp
      simp at hl
      omega
  | cons a t ih =>
    constructor
    · intro h
      match t, h with
      | [], h => simp [has_repeated_sequence] at h
      | [_], h => simp [has_repeated_sequence] at h
      | b :: c :: t3, h =>
        simp only [has_repeated_sequence, Bool.or_eq_true, Bool.and_eq_true,
          beq_iff_eq, bne_iff_ne] at h
        rcases h with ⟨⟨hn, h1⟩, h2⟩ | h
        · refine ⟨[], a, t3, ?_, hn⟩
          rw [← h2, ← h1]
          rfl
        · obtain ⟨pre, ch, suf, hp, hn⟩ := ih.mp h
          exact ⟨a :: pre, ch, suf, by rw [List.cons_append, ← hp], hn⟩
    · rintro ⟨pre, ch, suf, hp, hn⟩
      match pre, hp with
      | [], hp =>
        obtain ⟨rfl, rfl⟩ : a = ch ∧ t = ch :: ch :: suf := by
          simpa using hp
        simp [has_repeated_sequence, hn]
      | x :: pre2, hp =>
        obtain ⟨rfl, ht⟩ : a = x ∧ t = pre2 ++ ch :: ch :: ch :: suf := by
          simpa using hp
        exact has_repeated_sequence_cons a _ (ih.mpr ⟨pre2, ch, suf, ht, hn⟩)

/-- C6: when the lowercased password is in the caller-supplied blacklist the
analysis records blacklisted = true, appends the blacklist remark to the
remarks built so far, and subtracts 2 from the score relative to the same
analysis without a blacklist. -/
theorem blacklist_case_insensitive (p : List Char) (bl : List (List Char))
    (h : pyLower p ∈ bl) :
    (apply_blacklist p (some bl) (score_pre p)).blacklisted = true ∧
      (check_strength p (some bl)).remarks =
        (check_strength p none).remarks ++ ["Found in common-password blacklist"] ∧
      (apply_blacklist p (some bl) (score_pre p)).score =
        (apply_blacklist p none (score_pre p)).score - 2 := by
  refine ⟨?_, ?_, ?_⟩ <;>
    simp [check_strength, apply_blacklist, h]

/-- Witness for `blacklist_case_insensitive`: the spec's example
`analyze("Password1", {"password1"})`. -/
theorem blacklist_case_insensitive_witness :
    (apply_blacklist "Password1".toList (some ["password1".toList])
        (score_pre "Password1".toList)).blacklisted = true ∧
      (check_strength "Password1".toList (some ["password1".toList])).remarks =
        (check_strength "Password1".toList none).remarks ++
          ["Found in common-password blacklist"] ∧
      (apply_blacklist "Password1".toList (some ["password1".toList])
          (score_pre "Password1".toList)).score =
        (apply_blacklist "Password1".toList none (score_pre "Password1".toList)).score - 2 :=
  blacklist_case_insensitive "Password1".toList ["password1".toList] (by decide)

theorem length_step_snd (p : List Char) :
    (length_step p).2 = if p.length < 8 then ["Too short (min 8 chars)"] else [] := by
  simp only [length_step]
  split_ifs <;> first | rfl | omega

/-- C7: the remarks list is exactly the detection-order concatenation:
length remark, then the four variety remarks in lowercase, uppercase,
digits, symbols order, then the repeated-characters remark, then the
common-pattern remark, then the blacklist remark, and nothing else. -/
theorem remarks_in_detection_order (p : List Char) (bl : Option (List (List Char))) :
    (check_strength p bl).remarks =
      (if p.length < 8 then ["Too short (min 8 chars)"] else [])
      ++ (if hasLower p then [] else ["Add lowercase letters"])
      ++ (if hasUpper p then [] else ["Add uppercase letters"])
      ++ (if hasDigit p then [] else ["Add digits"])
      ++ (if hasSymbol p then [] else ["Add symbols (!, @, #, etc.)"])
      ++ (if has_repeated_sequence p then ["Contains repeated characters"] else [])
      ++ (if is_keyboard_pattern p then ["Contains common pattern (qwerty/1234)"] else [])
      ++ (match bl with
          | some b => if pyLower p ∈ b then ["Found in common-password blacklist"] else []
          | none => []) := by
  have hpre : (score_pre p).2 =
      (if p.length < 8 then ["Too short (min 8 chars)"] else [])
      ++ (if hasLower p then [] else ["Add lowercase letters"])
      ++ (if hasUpper p then [] else ["Add uppercase letters"])
      ++ (if hasDigit p then [] else ["Add digits"])
      ++ (if hasSymbol p then [] else ["Add symbols (!, @, #, etc.)"])
      ++ (if has_repeated_sequence p then ["Contains repeated characters"] else [])
      ++ (if is_keyboard_pattern p then ["Contains common pattern (qwerty/1234)"] else []) := by
    simp only [score_pre, addPoint_snd, penalty_snd, length_step_snd, List.append_assoc]
  have hrem : (check_strength p bl).remarks = (apply_blacklist p bl (score_pre p)).remarks := rfl
  rw [hrem]
  cases bl with
  | none => simp [apply_blacklist, hpre]
  | some b =>
    by_cases hb : pyLower p ∈ b <;>
      simp [apply_blacklist, hb, hpre, List.append_assoc]

/-- The entropy formula as the spec states it: pool size is the sum of the
fixed weight of each character class present (lowercase +26, uppercase +26,
digits +10, any other character +32); entropy is length × log2(poolSize)
rounded to 2 decimals, and exactly 0 when the pool size or the length is
zero. -/
noncomputable def entropy_spec (password : List Char) : ℝ :=
  let poolSize : ℕ :=
    (if hasLower password then 26 else 0) + (if hasUpper password then 26 else 0) +
    (if hasDigit password then 10 else 0) + (if hasSymbol password then 32 else 0)
  if poolSize = 0 ∨ password.length = 0 then 0
  else round2 ((password.length : ℝ) * Real.logb 2 (poolSize : ℝ))

theorem pool_of_eq_sum (p : List Char) :
    pool_of p =
      (if hasLower p then 26 else 0) + (if hasUpper p then 26 else 0) +
      (if hasDigit p then 10 else 0) + (if hasSymbol p then 32 else 0) := by
  simp only [pool_of]
  split_ifs <;> omega

/-- C4: the entropy the code computes equals the spec's formula. -/
theorem calculate_entropy_eq_spec (p : List Char) :
    calculate_entropy p = entropy_spec p := by
  simp only [calculate_entropy, entropy_spec, pool_of_eq_sum]

/-- The charset composition of a password: which of the four character
classes are present. -/
def charClasses (p : List Char) : Bool × Bool × Bool × Bool :=
  (hasLower p, hasUpper p, hasDigit p, hasSymbol p)

theorem char_in_some_class (c : Char) :
    (isLowerChar c || isUpperChar c || isDigitChar c || isSymbolChar c) = true := by
  simp only [isSymbolChar]
  cases isLowerChar c <;> cases isUpperChar c <;> cases isDigitChar c <;> rfl

theorem pool_of_pos (p : List Char) (hp : p ≠ []) : 0 < pool_of p := by
  match p, hp with
  | c :: t, _ =>
    have h := char_in_some_class c
    rw [pool_of_eq_sum]
    simp only [Bool.or_eq_true] at h
    have hmem : c ∈ c :: t := List.mem_cons_self c t
    rcases h with ((hc | hc) | hc) | hc
    · have hx : hasLower (c :: t) = true := List.any_eq_true.mpr ⟨c, hmem, hc⟩
      rw [hx]
      split_ifs <;> first | omega | simp_all
    · have hx : hasUpper (c :: t) = true := List.any_eq_true.mpr ⟨c, hmem, hc⟩
      rw [hx]
      split_ifs <;> first | omega | simp_all
    · have hx : hasDigit (c :: t) = true := List.any_eq_true.mpr ⟨c, hmem, hc⟩
      rw [hx]
      split_ifs <;> first | omega | simp_all
    · have hx : hasSymbol (c :: t) = true := List.any_eq_true.mpr ⟨c, hmem, hc⟩
      rw [hx]
      split_ifs <;> first | omega | simp_all

theorem round2_mono {x y : ℝ} (h : x ≤ y) : round2 x ≤ round2 y := by
  have hr : round (100 * x) ≤ round (100 * y) := by
    rw [round_eq, round_eq]
    exact Int.floor_le_floor (by linarith)
  exact (div_le_div_iff_of_pos_right (by norm_num)).mpr (by exact_mod_cast hr)

theorem round2_nonneg {x : ℝ} (h : 0 ≤ x) : 0 ≤ round2 x := by
  have := round2_mono h
  simpa [round2] using this

theorem calculate_entropy_nonneg (p : List Char) : 0 ≤ calculate_entropy p := by
  rw [calculate_entropy]
  split_ifs with h
  · exact le_refl 0
  · push_neg at h
    refine round2_nonneg (mul_nonneg (Nat.cast_nonneg _) ?_)
    refine Real.logb_nonneg (by norm_num) ?_
    have : 1 ≤ pool_of p := Nat.one_le_iff_ne_zero.mpr h.1
    exact_mod_cast this

/-- C9: increasing the length while holding the charset composition fixed
never decreases entropy. -/
theorem entropy_monotone (p1 p2 : List Char) (hlen : p1.length < p2.length)
    (hcls : charClasses p1 = charClasses p2) :
    calculate_entropy p1 ≤ calculate_entropy p2 := by
  have hpool : pool_of p1 = pool_of p2 := by
    rw [pool_of_eq_sum, pool_of_eq_sum]
    simp only [charClasses, Prod.mk.injEq] at hcls
    rw [hcls.1, hcls.2.1, hcls.2.2.1, hcls.2.2.2]
  have hp2ne : p2 ≠ [] := by
    intro h
    rw [h] at hlen
    simp at hlen
  have hp2pos : 0 < pool_of p2 := pool_of_pos p2 hp2ne
  by_cases h1 : p1.length = 0
  · rw [calculate_entropy]
    rw [if_pos (Or.inr h1)]
    exact calculate_entropy_nonneg p2
  · have hp1pos : 0 < pool_of p1 := hpool ▸ hp2pos
    rw [calculate_entropy, calculate_entropy, if_neg, if_neg]
    · rw [hpool]
      refine round2_mono (mul_le_mul_of_nonneg_right ?_ ?_)
      · exact_mod_cast hlen.le
      · refine Real.logb_nonneg (by norm_num) ?_
        exact_mod_cast hp2pos
    · push_neg
      exact ⟨hp2pos.ne.symm, fun h => by omega⟩
    · push_neg
      exact ⟨hp1pos.ne.symm, h1⟩

/-- Witness for `entropy_monotone`: a two-letter and a three-letter
all-lowercase password. -/
theorem entropy_monotone_witness :
    calculate_entropy "ab".toList ≤ calculate_entropy "abc".toList :=
  entropy_monotone "ab".toList "abc".toList (by decide) (by decide)

/-- C2: the strength level is decided in priority order — blacklisted gives
"Very Weak", else entropy ≥ 80 and score ≥ 6 gives "Strong", else
entropy ≥ 50 and score ≥ 4 gives "Medium", else "Weak" — and in particular
a "Strong" result forces score ≥ 6 and entropy ≥ 80. -/
theorem level_priority (p : List Char) (bl : Option (List (List Char))) :
    ((check_strength p bl).level =
        level_of (apply_blacklist p bl (score_pre p)).blacklisted
          (check_strength p bl).entropy (check_strength p bl).score) ∧
    ((apply_blacklist p bl (score_pre p)).blacklisted = true →
        (check_strength p bl).level = "Very Weak") ∧
    ((apply_blacklist p bl (score_pre p)).blacklisted = false →
        80 ≤ (check_strength p bl).entropy → 6 ≤ (check_strength p bl).score →
        (check_strength p bl).level = "Strong") ∧
    ((apply_blacklist p bl (score_pre p)).blacklisted = false →
        ¬(80 ≤ (check_strength p bl).entropy ∧ 6 ≤ (check_strength p bl).score) →
        50 ≤ (check_strength p bl).entropy → 4 ≤ (check_strength p bl).score →
        (check_strength p bl).level = "Medium") ∧
    ((apply_blacklist p bl (score_pre p)).blacklisted = false →
        ¬(80 ≤ (check_strength p bl).entropy ∧ 6 ≤ (check_strength p bl).score) →
        ¬(50 ≤ (check_strength p bl).entropy ∧ 4 ≤ (check_strength p bl).score) →
        (check_strength p bl).level = "Weak") ∧
    ((check_strength p bl).level = "Strong" →
        6 ≤ (check_strength p bl).score ∧ 80 ≤ (check_strength p bl).entropy) := by
  have hlev : (check_strength p bl).level =
      level_of (apply_blacklist p bl (score_pre p)).blacklisted
        (check_strength p bl).entropy (check_strength p bl).score := rfl
  refine ⟨hlev, ?_, ?_, ?_, ?_, ?_⟩ <;> rw [hlev] <;> rw [level_of]
  · intro hb
    rw [if_pos hb]
  · intro hb he hs
    rw [if_neg (by simp [hb]), if_pos ⟨he, hs⟩]
  · intro hb hns he hs
    rw [if_neg (by simp [hb]), if_neg hns, if_pos ⟨he, hs⟩]
  · intro hb hns hnm
    rw [if_neg (by simp [hb]), if_neg hns, if_neg hnm]
  · intro hstrong
    by_cases hb : (apply_blacklist p bl (score_pre p)).blacklisted
    · rw [if_pos hb] at hstrong
      exact absurd hstrong (by decide)
    · rw [if_neg (by simp [hb])] at hstrong
      by_cases hse : 80 ≤ (check_strength p bl).entropy ∧ 6 ≤ (check_strength p bl).score
      · exact ⟨hse.2, hse.1⟩
      · rw [if_neg hse] at hstrong
        by_cases hme : 50 ≤ (check_strength p bl).entropy ∧ 4 ≤ (check_strength p bl).score
        · rw [if_pos hme] at hstrong
          exact absurd hstrong (by decide)
        · rw [if_neg hme] at hstrong
          exact absurd hstrong (by decide)

end PasswordAnalyzer
